import Mathlib

/-!
Verification development for the adriana-photography backend.

The repository has two deployment variants of the same HTTP API:

* a flat-file variant (`src/index.js`, identical to `src/unnamed/part_001`):
  multer disk storage writes uploaded files into an `uploads/` directory,
  metadata lives in a plain JavaScript object `imageData` that is serialized
  to `imageData.json` after every mutation;
* a durable-database variant (`src/unnamed/part_000`): multer streams files to
  Cloudinary during multipart parsing, metadata lives in a MongoDB collection
  with a unique index on `imageKey` (`src/index.js` second section, the
  mongoose `Image` schema).

Both variants are embedded below.  The flat-file variant stores metadata in a
plain JavaScript object, so the embedding models the relevant JavaScript
object semantics faithfully:

* property read `o[k]` falls back to `Object.prototype` when `k` is not an
  own property, so keys such as "constructor" or "toString" read as truthy
  function values even on `\x7b\x7d`;
* assignment `o[k] = v` with `k = "__proto__"` invokes the inherited
  `__proto__` accessor and sets the object's prototype; it creates no own
  property;
* `delete o[k]` removes only an own property;
* own-property enumeration (`JSON.stringify`, `for..in`, `Object.keys`) lists
  array-index-like keys first in ascending numeric order, then the remaining
  string keys in insertion order.
-/

/-- Own data properties of a plain JavaScript object, in insertion order.
The JavaScript enumeration order is derived by `jsEnumOrder`. -/
abbrev JsObj (α : Type) : Type := List (String × α)

/-- Names of the own properties of `Object.prototype`.  Reading any of them
on a plain object yields a truthy value (a function, or an object for
`__proto__`). -/
def objectProtoProps : List String :=
  ["constructor", "hasOwnProperty", "isPrototypeOf", "propertyIsEnumerable",
   "toLocaleString", "toString", "valueOf", "__defineGetter__",
   "__defineSetter__", "__lookupGetter__", "__lookupSetter__", "__proto__"]

/-- Own-property lookup (no prototype chain). -/
def ownGet {α : Type} (o : JsObj α) (k : String) : Option α :=
  match o with
  | [] => none
  | (k2, v) :: r => if k2 = k then some v else ownGet r k

/-- Result of a JavaScript property read `o[k]` on a plain object holding
records: an own record, a truthy value inherited from `Object.prototype`,
or `undefined`. -/
inductive JsProp (α : Type) where
  | record (r : α)
  | inherited
  | undef
deriving Repr, DecidableEq

/-- JavaScript property read `o[k]`, including the prototype chain of a
plain object literal. -/
def jsGet {α : Type} (o : JsObj α) (k : String) : JsProp α :=
  match ownGet o k with
  | some r => JsProp.record r
  | none => if k ∈ objectProtoProps then JsProp.inherited else JsProp.undef

/-- JavaScript assignment `o[k] = v` on a plain object: `"__proto__"` hits
the inherited accessor (sets the prototype, no own property); an existing
own key is updated in place; a fresh key is appended in insertion order. -/
def jsInsert {α : Type} (o : JsObj α) (k : String) (v : α) : JsObj α :=
  if k = "__proto__" then o
  else if (ownGet o k).isSome then
    o.map (fun p => if p.1 = k then (k, v) else p)
  else o ++ [(k, v)]

/-- JavaScript `delete o[k]`: removes the own property, if any. -/
def jsDelete {α : Type} (o : JsObj α) (k : String) : JsObj α :=
  o.filter (fun p => ¬ p.1 = k)

/-- Decimal digit test on a character. -/
def isDigitCh (c : Char) : Bool :=
  48 ≤ c.toNat && c.toNat ≤ 57

/-- Numeric value of a decimal digit string. -/
def digitsToNat (l : List Char) : Nat :=
  l.foldl (fun n c => n * 10 + (c.toNat - 48)) 0

/-- Numeric value of a key, used to order array-index-like keys. -/
def keyNum (s : String) : Nat := digitsToNat s.data

/-- Whether a string is a JavaScript array index: the canonical decimal form
of an integer below 2^32 - 1.  Such keys are enumerated first, in ascending
numeric order, regardless of insertion order. -/
def isArrayIndexKey (s : String) : Bool :=
  match s.data with
  | [] => false
  | c :: cs =>
      (c :: cs).all isDigitCh && (c ≠ '0' || cs.isEmpty)
        && digitsToNat (c :: cs) < 4294967295

/-- JavaScript own-property enumeration order of a plain object:
array-index-like keys in ascending numeric order first, then the remaining
keys in insertion order.  `JSON.stringify` and `Object.keys` follow it. -/
def jsEnumOrder {α : Type} (o : JsObj α) : List (String × α) :=
  List.insertionSort (fun a b => keyNum a.1 ≤ keyNum b.1)
      (o.filter (fun p => isArrayIndexKey p.1))
    ++ o.filter (fun p => ! isArrayIndexKey p.1)

/-- `listIsPre pat s` is true when `pat` is an initial segment of `s`;
used to embed `String.startsWith` from the source's mime-type check. -/
def listIsPre : List Char → List Char → Bool
  | [], _ => true
  | _ :: _, [] => false
  | a :: as, b :: bs => a = b && listIsPre as bs

/-- `mimetype.startsWith("image/")` from the multer `fileFilter`. -/
def strStartsWith (s pat : String) : Bool :=
  listIsPre pat.data s.data

/-- Node's POSIX `path.basename`: drop trailing slashes, then keep the last
slash-free segment. -/
def posixBasename (p : String) : String :=
  String.mk (((p.data.reverse.dropWhile (fun c => c = '/')).takeWhile
    (fun c => ¬ c = '/')).reverse)

/-! ## Flat-file variant (`src/index.js`) -/

/-- The metadata record stored in `imageData[imageKey]` by the flat-file
upload handler. -/
structure ImageRecord where
  url : String
  originalName : String
  size : Nat
  mimetype : String
  uploadedAt : String
deriving Repr, DecidableEq

/-- A parsed multipart file as multer presents it to the handler
(`req.file`): the generated on-disk filename plus descriptive fields. -/
structure FilePayload where
  filename : String
  originalname : String
  size : Nat
  mimetype : String
deriving Repr, DecidableEq

/-- An upload request after body parsing: the optional file part and the
optional `imageKey` body field. -/
structure UploadRequest where
  file : Option FilePayload
  imageKey : Option String
deriving Repr, DecidableEq

/-- State of the flat-file variant: the in-memory `imageData` object, the
names of the regular files inside the `uploads/` directory, and the snapshot
last written to `imageData.json` by `saveImageData`. -/
structure FlatState where
  store : JsObj ImageRecord
  files : List String
  savedJson : List (String × ImageRecord)
deriving Repr, DecidableEq

/-- The empty flat-file state. -/
def flatEmpty : FlatState := ⟨[], [], []⟩

/-- Outcome of `POST /api/upload` in the flat-file variant.  `filterRejected`
and `limitRejected` are produced by the multer middleware before the handler
runs and surface through the Express error path, not as a handler response. -/
inductive FlatUploadResult where
  | ok (imageUrl : String) (imageKey : String)
  | badRequest (msg : String)
  | filterRejected (msg : String)
  | limitRejected
deriving Repr, DecidableEq

/-- The state after a successful flat-file upload: the blob is on disk, the
record is upserted into `imageData`, and `saveImageData` has serialized the
object. -/
def mkUploadedState (st : FlatState) (f : FilePayload) (k : String)
    (now : String) : FlatState :=
  let rec1 : ImageRecord :=
    ⟨"/uploads/" ++ f.filename, f.originalname, f.size, f.mimetype, now⟩
  let store2 := jsInsert st.store k rec1
  ⟨store2, st.files ++ [f.filename], jsEnumOrder store2⟩

/-- `POST /api/upload` of the flat-file variant, middleware included.
Multer first runs `fileFilter`, then (for an accepted file) the disk storage
engine writes the file into `uploads/`; only then does the handler body run
and check `imageKey`.  `now` is the `new Date().toISOString()` timestamp.
Whether multer leaves a truncated file behind on a `LIMIT_FILE_SIZE` abort is
environment behavior; no theorem below depends on that branch's file state. -/
def uploadFlat (st : FlatState) (req : UploadRequest) (now : String) :
    FlatUploadResult × FlatState :=
  match req.file with
  | none => (FlatUploadResult.badRequest "No file uploaded", st)
  | some f =>
      if ¬ strStartsWith f.mimetype "image/" then
        (FlatUploadResult.filterRejected "Only image files are allowed!", st)
      else if f.size > 5 * 1024 * 1024 then
        (FlatUploadResult.limitRejected, st)
      else
        match req.imageKey with
        | none =>
            (FlatUploadResult.badRequest "Image key is required",
             { st with files := st.files ++ [f.filename] })
        | some k =>
            if k = "" then
              (FlatUploadResult.badRequest "Image key is required",
               { st with files := st.files ++ [f.filename] })
            else
              (FlatUploadResult.ok ("/uploads/" ++ f.filename) k,
               mkUploadedState st f k now)

/-- Outcome of `GET /api/images/:key` in the flat-file variant.
`foundInherited` marks the truthy branch taken on a value inherited from
`Object.prototype` (the handler responds on the 200 path, not 404). -/
inductive FlatGetResult where
  | found (r : ImageRecord)
  | foundInherited
  | notFound
deriving Repr, DecidableEq

/-- `GET /api/images/:key` of the flat-file variant:
`if (imageData[key]) res.json(imageData[key]) else 404`. -/
def getFlat (st : FlatState) (k : String) : FlatGetResult :=
  match jsGet st.store k with
  | JsProp.record r => FlatGetResult.found r
  | JsProp.inherited => FlatGetResult.foundInherited
  | JsProp.undef => FlatGetResult.notFound

/-- `GET /api/images` of the flat-file variant: `res.json(imageData)`
serializes the own enumerable properties in JavaScript enumeration order. -/
def listAllFlat (st : FlatState) : List (String × ImageRecord) :=
  jsEnumOrder st.store

/-- Outcome of `DELETE /api/images/:key` in the flat-file variant.
`typeError`: the truthy lookup hit an inherited `Object.prototype` value, so
`imageData[key].url` is `undefined` and `path.basename` throws a `TypeError`
(the handler has no try/catch; Express answers 500).  `unlinkDirError`: the
join target is the `uploads/` directory itself or its parent, an existing
directory, so `unlinkSync` throws. -/
inductive FlatDeleteResult where
  | ok
  | notFound
  | typeError
  | unlinkDirError
deriving Repr, DecidableEq

/-- `DELETE /api/images/:key` of the flat-file variant.  The handler computes
`filename = path.basename(record.url)` and
`filePath = path.join(__dirname, "uploads", filename)`; `filename` is a
single slash-free segment, so `filePath` resolves inside `uploads/` except
for the segments ".", ".." and "" which resolve to the `uploads/` directory
itself or its parent - existing directories on which `unlinkSync` throws
before any mutation. -/
def deleteFlat (st : FlatState) (k : String) : FlatDeleteResult × FlatState :=
  match jsGet st.store k with
  | JsProp.undef => (FlatDeleteResult.notFound, st)
  | JsProp.inherited => (FlatDeleteResult.typeError, st)
  | JsProp.record r =>
      let seg := posixBasename r.url
      if seg = ".." ∨ seg = "." ∨ seg = "" then
        (FlatDeleteResult.unlinkDirError, st)
      else
        let files2 := st.files.filter (fun x => ¬ x = seg)
        let store2 := jsDelete st.store k
        (FlatDeleteResult.ok, ⟨store2, files2, jsEnumOrder store2⟩)

/-- The filename argument the flat-file delete handler passes to
`path.join(__dirname, "uploads", ·)` and hence to blob deletion, when the
truthy lookup produced a record. -/
def deleteFilename (st : FlatState) (k : String) : Option String :=
  match jsGet st.store k with
  | JsProp.record r => some (posixBasename r.url)
  | _ => none

/-- `POST /api/auth/login` result. -/
inductive LoginResult where
  | ok
  | unauthorized
deriving Repr, DecidableEq

/-- `POST /api/auth/login`: strict equality of the supplied `username` and
`password` body fields against `process.env.ADMIN_USERNAME` and
`process.env.ADMIN_PASSWORD`.  `none` is JavaScript `undefined` (absent env
var or absent body field); `undefined === undefined` is true.  The handler
never touches image state, which is threaded through unchanged. -/
def loginHandler (adminU adminP : Option String) (u p : Option String)
    (st : FlatState) : LoginResult × FlatState :=
  (if u = adminU ∧ p = adminP then LoginResult.ok else LoginResult.unauthorized,
   st)

/-! ## Durable-database variant (`src/unnamed/part_000`) -/

/-- A document of the mongoose `Image` collection (the schema in
`src/index.js`, second section): all fields required, unique index on
`imageKey`.  `uploadedAt` is a `Date`, modelled as a numeric timestamp. -/
structure DbImage where
  imageKey : String
  url : String
  publicId : String
  originalName : String
  size : Nat
  mimetype : String
  uploadedAt : Nat
deriving Repr, DecidableEq

/-- The per-image value shape the database variant's handlers respond with
(`url`, `publicId`, `originalName`, `size`, `mimetype`, `uploadedAt`). -/
structure DbRecordOut where
  url : String
  publicId : String
  originalName : String
  size : Nat
  mimetype : String
  uploadedAt : Nat
deriving Repr, DecidableEq

/-- Projection of a stored document to the response value shape, as built by
the `GET /api/images` and `GET /api/images/:key` handlers. -/
def recOfImg (i : DbImage) : DbRecordOut :=
  ⟨i.url, i.publicId, i.originalName, i.size, i.mimetype, i.uploadedAt⟩

/-- `Image.findOne(\x7b imageKey: key \x7d)`. -/
def dbFindOne (db : List DbImage) (k : String) : Option DbImage :=
  db.find? (fun i => i.imageKey == k)

/-- `Image.deleteOne(\x7b imageKey: key \x7d)`: removes the first matching
document (with the unique index there is at most one). -/
def dbDeleteOne (db : List DbImage) (k : String) : List DbImage :=
  match db with
  | [] => []
  | i :: r => if i.imageKey == k then r else i :: dbDeleteOne r k

/-- A parsed multipart file as `multer-storage-cloudinary` presents it:
`path` is the Cloudinary URL, `filename` the Cloudinary public id. -/
structure CloudFile where
  path : String
  filename : String
  originalname : String
  size : Nat
  mimetype : String
deriving Repr, DecidableEq

/-- The document written (and, with `new: true`, returned) by the upload
handler's `Image.findOneAndUpdate` upsert. -/
def mkDbDoc (k : String) (f : CloudFile) (now : Nat) : DbImage :=
  ⟨k, f.path, f.filename, f.originalname, f.size, f.mimetype, now⟩

/-- `Image.findOneAndUpdate(\x7b imageKey \x7d, doc, upsert, new)`: replace
the matching document in place, or append a fresh one. -/
def dbUpsert (db : List DbImage) (k : String) (doc : DbImage) :
    List DbImage :=
  if (dbFindOne db k).isSome then
    db.map (fun i => if i.imageKey == k then doc else i)
  else db ++ [doc]

/-- Outcome of `POST /api/upload` in the database variant.  `ok` carries the
upserted document, which the handler returns as `data`. -/
inductive DbUploadResult where
  | ok (doc : DbImage)
  | badRequestNoFile
  | badRequestNoKey
deriving Repr, DecidableEq

/-- `POST /api/upload` of the database variant (handler body; the file has
already been streamed to Cloudinary by the middleware when it is present). -/
def uploadDb (db : List DbImage) (file : Option CloudFile)
    (key : Option String) (now : Nat) : DbUploadResult × List DbImage :=
  match file with
  | none => (DbUploadResult.badRequestNoFile, db)
  | some f =>
      match key with
      | none => (DbUploadResult.badRequestNoKey, db)
      | some k =>
          if k = "" then (DbUploadResult.badRequestNoKey, db)
          else
            let doc := mkDbDoc k f now
            (DbUploadResult.ok doc, dbUpsert db k doc)

/-- Result of the `cloudinary.uploader.destroy` call: the promise resolves
both on success and when the blob is already absent (result "not found");
it rejects - throws at the `await` - on an API failure such as a permission
error. -/
inductive CloudinaryOutcome where
  | ok
  | notFound
  | failure
deriving Repr, DecidableEq

/-- Outcome of `DELETE /api/images/:key` in the database variant. -/
inductive DbDeleteResult where
  | ok
  | notFound
  | storageError
deriving Repr, DecidableEq

/-- `DELETE /api/images/:key` of the database variant: look the document up,
call `cloudinary.uploader.destroy` when `publicId` is truthy, then
`Image.deleteOne`.  A rejected destroy is caught and answered with 500
before `deleteOne` runs. -/
def deleteDb (db : List DbImage) (k : String) (outcome : CloudinaryOutcome) :
    DbDeleteResult × List DbImage :=
  match dbFindOne db k with
  | none => (DbDeleteResult.notFound, db)
  | some img =>
      if img.publicId = "" then
        (DbDeleteResult.ok, dbDeleteOne db k)
      else
        match outcome with
        | CloudinaryOutcome.failure => (DbDeleteResult.storageError, db)
        | _ => (DbDeleteResult.ok, dbDeleteOne db k)

/-- The sort relation of `Image.find(\x7b\x7d).sort(\x7b uploadedAt: -1 \x7d)`:
descending `uploadedAt`. -/
def byUploadedDesc (a b : DbImage) : Prop :=
  b.uploadedAt ≤ a.uploadedAt

instance : DecidableRel byUploadedDesc :=
  fun a b => Nat.decLe b.uploadedAt a.uploadedAt

instance : IsTotal DbImage byUploadedDesc :=
  ⟨fun a b => Nat.le_total b.uploadedAt a.uploadedAt⟩

instance : IsTrans DbImage byUploadedDesc :=
  ⟨fun _ _ _ h1 h2 => le_trans h2 h1⟩

/-- The object-rebuild loop of `GET /api/images`: `forEach` over the sorted
documents, assigning `imageData[img.imageKey] = record` into a fresh plain
object. -/
def buildImageObj : List DbImage → JsObj DbRecordOut → JsObj DbRecordOut
  | [], acc => acc
  | i :: rest, acc => buildImageObj rest (jsInsert acc i.imageKey (recOfImg i))

/-- `GET /api/images` of the database variant: fetch all documents sorted by
descending `uploadedAt`, rebuild a plain object keyed by `imageKey`, and
serialize it (JavaScript enumeration order). -/
def listAllDb (db : List DbImage) : List (String × DbRecordOut) :=
  jsEnumOrder (buildImageObj (List.insertionSort byUploadedDesc db) [])

/-- `GET /api/images/:key` of the database variant. -/
def getDb (db : List DbImage) (k : String) : Option DbRecordOut :=
  (dbFindOne db k).map recOfImg

/-- The keys of the stored documents. -/
def dbKeys (db : List DbImage) : List String :=
  db.map DbImage.imageKey

/-- The document stored and returned for an upload described by a
`(imageKey, file, timestamp)` triple. -/
def mkDocU (u : String × CloudFile × Nat) : DbImage :=
  mkDbDoc u.1 u.2.1 u.2.2

/-- A sequence of upload requests against the database variant, each with a
file part and an `imageKey`, run left to right. -/
def runUploadsDb : List DbImage → List (String × CloudFile × Nat) → List DbImage
  | db, [] => db
  | db, u :: rest =>
      runUploadsDb (uploadDb db (some u.2.1) (some u.1) u.2.2).2 rest

/-! ## Lemmas about the JavaScript object layer -/

/-- The own keys of a plain object, in insertion order. -/
def objKeys {α : Type} (o : JsObj α) : List String :=
  o.map Prod.fst

/-- Number of own entries stored under a key. -/
def keyCount {α : Type} (o : JsObj α) (k : String) : Nat :=
  (o.filter (fun p => p.1 = k)).length

theorem objKeys_cons {α : Type} (p : String × α) (r : JsObj α) :
    objKeys (p :: r) = p.1 :: objKeys r := rfl

theorem ownGet_eq_none_iff {α : Type} (o : JsObj α) (k : String) :
    ownGet o k = none ↔ ¬ k ∈ objKeys o := by
  induction o with
  | nil => simp [ownGet, objKeys]
  | cons p r ih =>
      obtain ⟨k2, v⟩ := p
      rw [objKeys_cons]
      by_cases h : k2 = k
      · subst h
        simp [ownGet]
      · simp only [ownGet, h, if_false, List.mem_cons, not_or]
        constructor
        · intro hn
          exact ⟨fun hh => h hh.symm, ih.mp hn⟩
        · intro hn
          exact ih.mpr hn.2

theorem keyCount_cons {α : Type} (p : String × α) (r : JsObj α) (k : String) :
    keyCount (p :: r) k
      = if p.1 = k then keyCount r k + 1 else keyCount r k := by
  by_cases h : p.1 = k
  · simp [keyCount, List.filter_cons, h]
  · simp [keyCount, List.filter_cons, h]

theorem keyCount_eq_zero_of_not_mem {α : Type} {o : JsObj α} {k : String}
    (h : ¬ k ∈ objKeys o) : keyCount o k = 0 := by
  induction o with
  | nil => rfl
  | cons p r ih =>
      rw [objKeys_cons] at h
      simp only [List.mem_cons, not_or] at h
      rw [keyCount_cons, if_neg (fun hh => h.1 hh.symm)]
      exact ih h.2

theorem keyCount_eq_one_of_nodup {α : Type} {o : JsObj α} {k : String}
    (hnd : (objKeys o).Nodup) (hmem : k ∈ objKeys o) : keyCount o k = 1 := by
  induction o with
  | nil => simp [objKeys] at hmem
  | cons p r ih =>
      rw [objKeys_cons] at hnd hmem
      rw [List.nodup_cons] at hnd
      rw [keyCount_cons]
      by_cases h : p.1 = k
      · have hzero : keyCount r k = 0 :=
          keyCount_eq_zero_of_not_mem (by rw [← h]; exact hnd.1)
        rw [if_pos h, hzero]
      · rcases List.mem_cons.mp hmem with hmem | hmem
        · exact absurd hmem.symm h
        · rw [if_neg h]
          exact ih hnd.2 hmem

theorem ownGet_append_of_none {α : Type} {o : JsObj α} {k : String}
    (h : ownGet o k = none) (l : JsObj α) :
    ownGet (o ++ l) k = ownGet l k := by
  induction o with
  | nil => rfl
  | cons p r ih =>
      obtain ⟨k2, v⟩ := p
      by_cases hk : k2 = k
      · simp [ownGet, hk] at h
      · simp only [ownGet, hk, if_false, List.cons_append] at *
        exact ih h

theorem objKeys_jsInsert_update {α : Type} (o : JsObj α) (k : String) (v : α)
    (hp : ¬ k = "__proto__") (hs : (ownGet o k).isSome) :
    objKeys (jsInsert o k v) = objKeys o := by
  simp only [jsInsert, hp, if_false, hs, if_true]
  simp only [objKeys, List.map_map]
  refine List.map_congr_left (fun p _ => ?_)
  by_cases h : p.1 = k
  · simp [Function.comp, h]
  · simp [Function.comp, h]

theorem objKeys_jsInsert_fresh {α : Type} (o : JsObj α) (k : String) (v : α)
    (hp : ¬ k = "__proto__") (hs : ownGet o k = none) :
    objKeys (jsInsert o k v) = objKeys o ++ [k] := by
  simp [jsInsert, hp, hs, objKeys]

theorem objKeys_nodup_jsInsert {α : Type} {o : JsObj α} (k : String) (v : α)
    (hnd : (objKeys o).Nodup) : (objKeys (jsInsert o k v)).Nodup := by
  by_cases hp : k = "__proto__"
  · simpa [jsInsert, hp] using hnd
  · cases hs : ownGet o k with
    | some r =>
        rw [objKeys_jsInsert_update o k v hp (by simp [hs])]
        exact hnd
    | none =>
        rw [objKeys_jsInsert_fresh o k v hp hs]
        have hnm : ¬ k ∈ objKeys o := (ownGet_eq_none_iff o k).mp hs
        simp [List.nodup_append, hnd, hnm]

theorem ownGet_map_update {α : Type} (o : JsObj α) (k : String) (v : α)
    (hs : (ownGet o k).isSome = true) :
    ownGet (o.map (fun p => if p.1 = k then (k, v) else p)) k = some v := by
  induction o with
  | nil => simp [ownGet] at hs
  | cons p r ih =>
      obtain ⟨k2, v2⟩ := p
      by_cases h : k2 = k
      · subst h
        rw [show List.map (fun p => if p.1 = k2 then (k2, v) else p) ((k2, v2) :: r)
              = (k2, v) :: List.map (fun p => if p.1 = k2 then (k2, v) else p) r
            from by simp]
        simp [ownGet]
      · simp only [ownGet, h, if_false] at hs
        simp only [List.map_cons]
        rw [show (if ((k2, v2) : String × α).1 = k then (k, v) else (k2, v2))
              = (k2, v2) from by simp [h]]
        simp only [ownGet, h, if_false]
        exact ih hs

theorem ownGet_jsInsert_self {α : Type} (o : JsObj α) (k : String) (v : α)
    (hp : ¬ k = "__proto__") :
    ownGet (jsInsert o k v) k = some v := by
  simp only [jsInsert, hp, if_false]
  cases hs : (ownGet o k).isSome with
  | false =>
      simp only [Bool.false_eq_true, if_false]
      rw [ownGet_append_of_none (by cases h : ownGet o k <;> simp [h] at hs ⊢)]
      simp [ownGet]
  | true =>
      simp only [if_true]
      exact ownGet_map_update o k v hs

theorem keyCount_jsInsert_self {α : Type} (o : JsObj α) (k : String) (v : α)
    (hp : ¬ k = "__proto__") (hnd : (objKeys o).Nodup) :
    keyCount (jsInsert o k v) k = 1 := by
  have h1 := ownGet_jsInsert_self o k v hp
  have h2 := objKeys_nodup_jsInsert (o := o) k v hnd
  refine keyCount_eq_one_of_nodup h2 ?_
  by_contra hnm
  rw [← ownGet_eq_none_iff] at hnm
  rw [h1] at hnm
  exact Option.noConfusion hnm

theorem jsEnumOrder_perm {α : Type} (o : JsObj α) : (jsEnumOrder o).Perm o :=
  ((List.perm_insertionSort _ _).append_right _).trans
    (List.filter_append_perm _ o)

theorem mem_objKeys_jsEnumOrder {α : Type} (o : JsObj α) (k : String) :
    k ∈ objKeys (jsEnumOrder o) ↔ k ∈ objKeys o :=
  ((jsEnumOrder_perm o).map Prod.fst).mem_iff

theorem ownGet_eq_some_of_mem {α : Type} {o : JsObj α} {k : String} {v : α}
    (hnd : (objKeys o).Nodup) (hmem : (k, v) ∈ o) :
    ownGet o k = some v := by
  induction o with
  | nil => simp at hmem
  | cons p r ih =>
      obtain ⟨k2, v2⟩ := p
      rw [objKeys_cons, List.nodup_cons] at hnd
      rcases List.mem_cons.mp hmem with h | h
      · have h1 : k = k2 := congrArg Prod.fst h
        have h2 : v = v2 := congrArg Prod.snd h
        subst h1
        subst h2
        simp [ownGet]
      · by_cases hk : k2 = k
        · subst hk
          exact absurd (List.mem_map_of_mem Prod.fst h) hnd.1
        · simp only [ownGet, hk, if_false]
          exact ih hnd.2 h

theorem posixBasename_no_slash (p : String) :
    ¬ '/' ∈ (posixBasename p).data := by
  intro h
  have h2 : '/' ∈ ((p.data.reverse.dropWhile (fun c => c = '/')).takeWhile
      (fun c => ¬ c = '/')).reverse := h
  rw [List.mem_reverse] at h2
  have h3 := List.mem_takeWhile_imp h2
  simp at h3

/-! ## Claim theorems -/

/-- C10: the login operation succeeds (HTTP 200) exactly when the supplied
username and password are strictly equal to the configured admin username
and password, returns 401 "Invalid credentials" otherwise, and never mutates
image state; in particular, with all four values absent (`undefined`), the
strict equalities hold and login succeeds. -/
theorem login_strict_equality (au ap u p : Option String) (st : FlatState) :
    (loginHandler au ap u p st).2 = st
    ∧ ((loginHandler au ap u p st).1 = LoginResult.ok ↔ (u = au ∧ p = ap))
    ∧ ((loginHandler au ap u p st).1 = LoginResult.unauthorized
        ↔ ¬ (u = au ∧ p = ap))
    ∧ (loginHandler none none none none st).1 = LoginResult.ok := by
  refine ⟨rfl, ?_, ?_, by simp [loginHandler]⟩ <;>
  · by_cases h : u = au ∧ p = ap
    · simp [loginHandler, h]
    · simp [loginHandler, h]

/-- C6 (code bug): `DELETE /api/images/:key` on a key with no record does
not always answer 404.  On the empty store and the never-inserted key
"constructor", the flat-file handler's truthy check hits the inherited
`Object.prototype.constructor`, the handler reads `.url` of it (undefined)
and `path.basename` throws a `TypeError`, which Express surfaces as a 500 -
not the 404 the claim requires (the stores are indeed unchanged). -/
theorem delete_unknown_key_bug :
    ownGet flatEmpty.store "constructor" = none
    ∧ deleteFlat flatEmpty "constructor" = (FlatDeleteResult.typeError, flatEmpty)
    ∧ ¬ (deleteFlat flatEmpty "constructor").1 = FlatDeleteResult.notFound := by
  refine ⟨rfl, by decide, by decide⟩

/-- C7 (code bug): `GET /api/images/:key` does not answer 404 for every
never-inserted key.  On the empty store, the key "toString" reads the
inherited `Object.prototype.toString` (truthy), so the handler takes the
found branch instead of responding 404 "Image not found". -/
theorem get_unknown_key_bug :
    ownGet flatEmpty.store "toString" = none
    ∧ getFlat flatEmpty "toString" = FlatGetResult.foundInherited
    ∧ ¬ getFlat flatEmpty "toString" = FlatGetResult.notFound := by
  refine ⟨rfl, by decide, by decide⟩

/-- C4: an upload whose file's mime type does not start with "image/" is
rejected by the multer `fileFilter` with the validation error "Only image
files are allowed!" before the storage engine or the handler run: the blob
store (`files`), the metadata object (`store`) and the persisted snapshot
are all left exactly as they were - zero calls to either adapter. -/
theorem upload_wrong_mime_no_adapter_calls (st : FlatState)
    (req : UploadRequest) (now : String) (f : FilePayload)
    (hf : req.file = some f)
    (hm : strStartsWith f.mimetype "image/" = false) :
    uploadFlat st req now
      = (FlatUploadResult.filterRejected "Only image files are allowed!", st) := by
  simp [uploadFlat, hf, hm]

/-- Witness for C4 at a concrete PDF upload. -/
theorem upload_wrong_mime_no_adapter_calls_witness :
    uploadFlat flatEmpty
        ⟨some ⟨"d.pdf", "d.pdf", 7, "application/pdf"⟩, some "k"⟩ "t"
      = (FlatUploadResult.filterRejected "Only image files are allowed!",
         flatEmpty) :=
  upload_wrong_mime_no_adapter_calls flatEmpty
    ⟨some ⟨"d.pdf", "d.pdf", 7, "application/pdf"⟩, some "k"⟩ "t"
    ⟨"d.pdf", "d.pdf", 7, "application/pdf"⟩ rfl (by decide)

/-- C1 (counterexample): a request carrying a valid image file but an empty
`imageKey` violates the claim's precondition, is answered 400
("Image key is required"), yet a blob HAS been stored: the multer disk
storage wrote the file into `uploads/` before the handler checked the key,
so "performs no writes: no blob is stored" is false. -/
theorem upload_precondition_no_writes_cex :
    (uploadFlat flatEmpty
        ⟨some ⟨"image-1.jpg", "photo.jpg", 100, "image/jpeg"⟩, some ""⟩ "t0").1
      = FlatUploadResult.badRequest "Image key is required"
    ∧ (uploadFlat flatEmpty
        ⟨some ⟨"image-1.jpg", "photo.jpg", 100, "image/jpeg"⟩, some ""⟩ "t0").2.files
      = ["image-1.jpg"]
    ∧ ¬ (uploadFlat flatEmpty
        ⟨some ⟨"image-1.jpg", "photo.jpg", 100, "image/jpeg"⟩, some ""⟩ "t0").2.files
      = flatEmpty.files := by
  refine ⟨by decide, by decide, by decide⟩

/-- C1 (amended): a precondition-violating upload request is answered 400
and never creates or modifies a metadata record; when no file payload is
present, no blob is stored either; but when an accepted image file
accompanies a missing or empty `imageKey`, the blob has already been written
by the upload middleware before the key check (it is orphaned, the metadata
and persisted snapshot stay untouched). -/
theorem upload_precondition_no_writes_amended (st : FlatState)
    (req : UploadRequest) (now : String) :
    (req.file = none →
       uploadFlat st req now
         = (FlatUploadResult.badRequest "No file uploaded", st))
    ∧ (∀ f, req.file = some f →
        strStartsWith f.mimetype "image/" = true →
        f.size ≤ 5 * 1024 * 1024 →
        (req.imageKey = none ∨ req.imageKey = some "") →
        uploadFlat st req now
          = (FlatUploadResult.badRequest "Image key is required",
             { st with files := st.files ++ [f.filename] })) := by
  constructor
  · intro h
    simp [uploadFlat, h]
  · intro f hf hm hs hk
    have hsz : ¬ f.size > 5 * 1024 * 1024 := by omega
    rcases hk with hk | hk <;> simp [uploadFlat, hf, hm, hsz, hk]

/-- Witness for the amended C1 at a concrete request with a file and no
`imageKey`. -/
theorem upload_precondition_no_writes_amended_witness :
    uploadFlat (⟨[], ["old.png"], []⟩ : FlatState)
        ⟨some ⟨"new.jpg", "n.jpg", 5, "image/png"⟩, none⟩ "t1"
      = (FlatUploadResult.badRequest "Image key is required",
         ⟨[], ["old.png", "new.jpg"], []⟩) := by
  have h := (upload_precondition_no_writes_amended (⟨[], ["old.png"], []⟩ : FlatState)
      ⟨some ⟨"new.jpg", "n.jpg", 5, "image/png"⟩, none⟩ "t1").2
    ⟨"new.jpg", "n.jpg", 5, "image/png"⟩ rfl (by decide) (by decide) (Or.inl rfl)
  exact h

/-- Helper: a flat-file upload with an accepted image file and a non-empty
key succeeds and produces `mkUploadedState`. -/
theorem uploadFlat_ok (st : FlatState) (f : FilePayload) (k : String)
    (now : String) (hm : strStartsWith f.mimetype "image/" = true)
    (hs : f.size ≤ 5 * 1024 * 1024) (hk : ¬ k = "") :
    uploadFlat st ⟨some f, some k⟩ now
      = (FlatUploadResult.ok ("/uploads/" ++ f.filename) k,
         mkUploadedState st f k now) := by
  have hsz : ¬ f.size > 5 * 1024 * 1024 := by omega
  simp [uploadFlat, hm, hsz, hk]

/-- C9: in the flat-file variant, the filename handed to blob deletion is
always `basename(record.url)`, a single slash-free path segment joined under
`uploads/`; deletion therefore never removes a file outside `uploads/`
(`files` only ever shrinks by that one segment), and the segments "..", "."
and "" - the only ones whose join escapes or stays at the directory - name
existing directories, on which `unlinkSync` throws before any mutation. -/
theorem delete_path_single_segment (st : FlatState) (k : String) :
    ((deleteFlat st k).2.files).Sublist st.files
    ∧ ∀ r, jsGet st.store k = JsProp.record r →
        deleteFilename st k = some (posixBasename r.url)
        ∧ ¬ '/' ∈ (posixBasename r.url).data
        ∧ ((posixBasename r.url = ".." ∨ posixBasename r.url = "."
              ∨ posixBasename r.url = "") →
            deleteFlat st k = (FlatDeleteResult.unlinkDirError, st))
        ∧ ∀ x, x ∈ st.files → ¬ x ∈ (deleteFlat st k).2.files →
            x = posixBasename r.url := by
  cases hg : jsGet st.store k with
  | undef =>
      refine ⟨?_, fun r hr => JsProp.noConfusion hr⟩
      simp [deleteFlat, hg]
  | inherited =>
      refine ⟨?_, fun r hr => JsProp.noConfusion hr⟩
      simp [deleteFlat, hg]
  | record r0 =>
      by_cases hdir : posixBasename r0.url = ".." ∨ posixBasename r0.url = "."
          ∨ posixBasename r0.url = ""
      · constructor
        · simp [deleteFlat, hg, hdir]
        · intro r hr
          obtain rfl : r0 = r := JsProp.record.inj hr
          refine ⟨by simp [deleteFilename, hg], posixBasename_no_slash _, ?_, ?_⟩
          · intro _
            simp [deleteFlat, hg, hdir]
          · intro x hx hnx
            exact absurd (by simpa [deleteFlat, hg, hdir] using hx) hnx
      · constructor
        · simp only [deleteFlat, hg, hdir, if_false]
          exact List.filter_sublist st.files
        · intro r hr
          obtain rfl : r0 = r := JsProp.record.inj hr
          refine ⟨by simp [deleteFilename, hg], posixBasename_no_slash _, ?_, ?_⟩
          · intro h
            exact absurd h hdir
          · intro x hx hnx
            simp only [deleteFlat, hg, hdir, if_false] at hnx
            by_contra hne
            exact hnx (List.mem_filter.mpr ⟨hx, by simpa using hne⟩)

/-- Witness for C9 at a concrete store holding one record. -/
theorem delete_path_single_segment_witness :
    deleteFilename
        (⟨[("k", ⟨"/uploads/a.jpg", "a", 1, "image/png", "t"⟩)],
          ["a.jpg", "b.png"], []⟩ : FlatState) "k"
      = some (posixBasename "/uploads/a.jpg")
    ∧ ¬ '/' ∈ (posixBasename "/uploads/a.jpg").data := by
  have h := (delete_path_single_segment
      (⟨[("k", ⟨"/uploads/a.jpg", "a", 1, "image/png", "t"⟩)],
        ["a.jpg", "b.png"], []⟩ : FlatState) "k").2
    ⟨"/uploads/a.jpg", "a", 1, "image/png", "t"⟩ rfl
  exact ⟨h.1, h.2.1⟩

/-- C3 (counterexample): two uploads with the same key "__proto__" both
answer 200 success, yet afterwards no metadata record at all exists for that
key and `listAll()` does not contain it - the assignment
`imageData["__proto__"] = record` set the object's prototype instead of
creating an entry. -/
theorem upsert_same_key_cex :
    (uploadFlat flatEmpty
        ⟨some ⟨"a.jpg", "a.jpg", 1, "image/jpeg"⟩, some "__proto__"⟩ "t1").1
      = FlatUploadResult.ok "/uploads/a.jpg" "__proto__"
    ∧ (uploadFlat
        (uploadFlat flatEmpty
          ⟨some ⟨"a.jpg", "a.jpg", 1, "image/jpeg"⟩, some "__proto__"⟩ "t1").2
        ⟨some ⟨"b.png", "b.png", 2, "image/png"⟩, some "__proto__"⟩ "t2").1
      = FlatUploadResult.ok "/uploads/b.png" "__proto__"
    ∧ keyCount
        (uploadFlat
          (uploadFlat flatEmpty
            ⟨some ⟨"a.jpg", "a.jpg", 1, "image/jpeg"⟩, some "__proto__"⟩ "t1").2
          ⟨some ⟨"b.png", "b.png", 2, "image/png"⟩, some "__proto__"⟩ "t2").2.store
        "__proto__" = 0
    ∧ ¬ "__proto__" ∈ objKeys (listAllFlat
        (uploadFlat
          (uploadFlat flatEmpty
            ⟨some ⟨"a.jpg", "a.jpg", 1, "image/jpeg"⟩, some "__proto__"⟩ "t1").2
          ⟨some ⟨"b.png", "b.png", 2, "image/png"⟩, some "__proto__"⟩ "t2").2) := by
  refine ⟨by decide, by decide, by decide, by decide⟩

/-- C3 (amended): for every key other than the string "__proto__", two
successful uploads with that same key leave exactly one metadata record for
it, whose fields (`url`, `originalName`, `size`, `mimetype`, `uploadedAt`)
are those of the second upload (last-write-wins), and the key is present in
`listAll()`. -/
theorem upsert_same_key_last_write_wins (st : FlatState)
    (f1 f2 : FilePayload) (k t1 t2 : String)
    (hnd : (objKeys st.store).Nodup)
    (hk0 : ¬ k = "") (hkp : ¬ k = "__proto__")
    (hm1 : strStartsWith f1.mimetype "image/" = true)
    (hs1 : f1.size ≤ 5 * 1024 * 1024)
    (hm2 : strStartsWith f2.mimetype "image/" = true)
    (hs2 : f2.size ≤ 5 * 1024 * 1024) :
    uploadFlat st ⟨some f1, some k⟩ t1
      = (FlatUploadResult.ok ("/uploads/" ++ f1.filename) k,
         mkUploadedState st f1 k t1)
    ∧ uploadFlat (mkUploadedState st f1 k t1) ⟨some f2, some k⟩ t2
      = (FlatUploadResult.ok ("/uploads/" ++ f2.filename) k,
         mkUploadedState (mkUploadedState st f1 k t1) f2 k t2)
    ∧ ownGet (mkUploadedState (mkUploadedState st f1 k t1) f2 k t2).store k
      = some ⟨"/uploads/" ++ f2.filename, f2.originalname, f2.size,
              f2.mimetype, t2⟩
    ∧ keyCount (mkUploadedState (mkUploadedState st f1 k t1) f2 k t2).store k
      = 1
    ∧ k ∈ objKeys (listAllFlat
        (mkUploadedState (mkUploadedState st f1 k t1) f2 k t2)) := by
  have hnd1 : (objKeys (mkUploadedState st f1 k t1).store).Nodup := by
    simp only [mkUploadedState]
    exact objKeys_nodup_jsInsert k _ hnd
  have hsome : ownGet (mkUploadedState (mkUploadedState st f1 k t1) f2 k t2).store k
      = some ⟨"/uploads/" ++ f2.filename, f2.originalname, f2.size,
              f2.mimetype, t2⟩ := by
    simp only [mkUploadedState]
    exact ownGet_jsInsert_self _ k _ hkp
  refine ⟨uploadFlat_ok st f1 k t1 hm1 hs1 hk0,
          uploadFlat_ok _ f2 k t2 hm2 hs2 hk0, hsome, ?_, ?_⟩
  · simp only [mkUploadedState]
    exact keyCount_jsInsert_self _ k _ hkp hnd1
  · have hmem : k ∈ objKeys
        (mkUploadedState (mkUploadedState st f1 k t1) f2 k t2).store := by
      by_contra hnm
      rw [← ownGet_eq_none_iff] at hnm
      rw [hsome] at hnm
      exact Option.noConfusion hnm
    simpa [listAllFlat, mem_objKeys_jsEnumOrder] using hmem

/-- Witness for the amended C3 at two concrete uploads with key "hero-1". -/
theorem upsert_same_key_last_write_wins_witness :
    ownGet (mkUploadedState
        (mkUploadedState flatEmpty ⟨"a.jpg", "a.jpg", 1, "image/jpeg"⟩
          "hero-1" "t1")
        ⟨"b.png", "b.png", 2, "image/png"⟩ "hero-1" "t2").store "hero-1"
      = some ⟨"/uploads/b.png", "b.png", 2, "image/png", "t2"⟩
    ∧ keyCount (mkUploadedState
        (mkUploadedState flatEmpty ⟨"a.jpg", "a.jpg", 1, "image/jpeg"⟩
          "hero-1" "t1")
        ⟨"b.png", "b.png", 2, "image/png"⟩ "hero-1" "t2").store "hero-1" = 1 := by
  have h := upsert_same_key_last_write_wins flatEmpty
    ⟨"a.jpg", "a.jpg", 1, "image/jpeg"⟩ ⟨"b.png", "b.png", 2, "image/png"⟩
    "hero-1" "t1" "t2" (by decide) (by decide) (by decide) (by decide)
    (by decide) (by decide) (by decide)
  exact ⟨h.2.2.1, h.2.2.2.1⟩

/-- C2: when a record exists for the key and the Cloudinary destroy call
fails for a reason other than absence (the promise rejects), the delete
operation surfaces a storage error (HTTP 500 "Failed to delete image") and
the whole metadata collection - in particular the record for the key - is
left unchanged: `Image.deleteOne` is never reached. -/
theorem delete_blob_failure_keeps_record (db : List DbImage) (k : String)
    (img : DbImage) (h : dbFindOne db k = some img)
    (hp : ¬ img.publicId = "") :
    deleteDb db k CloudinaryOutcome.failure = (DbDeleteResult.storageError, db) := by
  simp [deleteDb, h, hp]

/-- Witness for C2 at a concrete one-document collection. -/
theorem delete_blob_failure_keeps_record_witness :
    deleteDb [⟨"hero", "u", "pid", "o", 5, "image/jpeg", 1⟩] "hero"
        CloudinaryOutcome.failure
      = (DbDeleteResult.storageError,
         [⟨"hero", "u", "pid", "o", 5, "image/jpeg", 1⟩]) :=
  delete_blob_failure_keeps_record _ "hero"
    ⟨"hero", "u", "pid", "o", 5, "image/jpeg", 1⟩ rfl (by decide)

theorem dbFindOne_eq_none {db : List DbImage} {k : String}
    (h : ¬ k ∈ dbKeys db) : dbFindOne db k = none := by
  rw [dbFindOne, List.find?_eq_none]
  intro x hx
  simp only [beq_iff_eq]
  intro he
  exact h (he ▸ List.mem_map_of_mem DbImage.imageKey hx)

theorem uploadDb_ok (db : List DbImage) (f : CloudFile) (k : String)
    (now : Nat) (hk : ¬ k = "") :
    uploadDb db (some f) (some k) now
      = (DbUploadResult.ok (mkDbDoc k f now), dbUpsert db k (mkDbDoc k f now)) := by
  simp [uploadDb, hk]

theorem runUploadsDb_fresh :
    ∀ (ups : List (String × CloudFile × Nat)) (db : List DbImage),
      (∀ u ∈ ups, ¬ u.1 ∈ dbKeys db) → (ups.map Prod.fst).Nodup →
      (∀ u ∈ ups, ¬ u.1 = "") →
      runUploadsDb db ups = db ++ ups.map mkDocU := by
  intro ups
  induction ups with
  | nil => intro db _ _ _; simp [runUploadsDb]
  | cons u rest ih =>
      intro db hfresh hnd hne
      have hk : ¬ u.1 = "" := hne u (List.mem_cons_self u rest)
      have hf1 : ¬ u.1 ∈ dbKeys db := hfresh u (List.mem_cons_self u rest)
      rw [List.map_cons, List.nodup_cons] at hnd
      rw [runUploadsDb, uploadDb_ok db u.2.1 u.1 u.2.2 hk]
      rw [show dbUpsert db u.1 (mkDbDoc u.1 u.2.1 u.2.2) = db ++ [mkDocU u]
          from by simp [dbUpsert, dbFindOne_eq_none hf1, mkDocU]]
      rw [ih (db ++ [mkDocU u]) ?_ hnd.2 (fun u' hu' => hne u' (List.mem_cons_of_mem u hu'))]
      · simp
      · intro u' hu'
        have hk1 : dbKeys (db ++ [mkDocU u]) = dbKeys db ++ [u.1] := by
          simp [dbKeys, mkDocU, mkDbDoc]
        rw [hk1]
        simp only [List.mem_append, List.mem_singleton, not_or]
        refine ⟨hfresh u' (List.mem_cons_of_mem u hu'), ?_⟩
        intro he
        exact hnd.1 (he ▸ List.mem_map_of_mem Prod.fst hu')

theorem buildImageObj_eq :
    ∀ (l : List DbImage) (acc : JsObj DbRecordOut),
      (∀ i ∈ l, ¬ i.imageKey ∈ objKeys acc) →
      ((l.map DbImage.imageKey).Nodup) →
      buildImageObj l acc
        = acc ++ (l.filter (fun i => ¬ i.imageKey = "__proto__")).map
            (fun i => (i.imageKey, recOfImg i)) := by
  intro l
  induction l with
  | nil => intro acc _ _; simp [buildImageObj]
  | cons i rest ih =>
      intro acc hacc hnd
      rw [List.map_cons, List.nodup_cons] at hnd
      rw [buildImageObj]
      by_cases hp : i.imageKey = "__proto__"
      · rw [show jsInsert acc i.imageKey (recOfImg i) = acc
            from by simp [jsInsert, hp]]
        rw [ih acc (fun i' hi' => hacc i' (List.mem_cons_of_mem i hi')) hnd.2]
        rw [List.filter_cons, if_neg (by simp [hp])]
      · have hfr : ownGet acc i.imageKey = none :=
          (ownGet_eq_none_iff acc i.imageKey).mpr
            (hacc i (List.mem_cons_self i rest))
        rw [show jsInsert acc i.imageKey (recOfImg i)
              = acc ++ [(i.imageKey, recOfImg i)]
            from by simp [jsInsert, hp, hfr]]
        rw [ih (acc ++ [(i.imageKey, recOfImg i)]) ?_ hnd.2]
        · rw [List.filter_cons, if_pos (by simp [hp])]
          simp
        · intro i' hi'
          have hk1 : objKeys (acc ++ [(i.imageKey, recOfImg i)])
              = objKeys acc ++ [i.imageKey] := by simp [objKeys]
          rw [hk1]
          simp only [List.mem_append, List.mem_singleton, not_or]
          refine ⟨hacc i' (List.mem_cons_of_mem i hi'), ?_⟩
          intro he
          exact hnd.1 (he ▸ List.mem_map_of_mem DbImage.imageKey hi')

/-- C5 (counterexample): starting from the empty store, one successful
upload (N = 1) with the distinct key "__proto__" answers 200 with the
upserted document, yet `listAll()` returns a mapping with 0 keys: the
object rebuild drops the key because assigning it sets the prototype. -/
theorem listAll_roundtrip_cex :
    (uploadDb [] (some ⟨"u", "p", "o", 1, "image/png"⟩) (some "__proto__") 7).1
      = DbUploadResult.ok ⟨"__proto__", "u", "p", "o", 1, "image/png", 7⟩
    ∧ (listAllDb
        (uploadDb [] (some ⟨"u", "p", "o", 1, "image/png"⟩)
          (some "__proto__") 7).2).length = 0 := by
  refine ⟨by decide, by decide⟩

/-- C5 (amended): starting from an empty store, after N successful uploads
with N pairwise-distinct non-empty imageKeys none of which is the string
"__proto__", every upload call returns the document it stored, `listAll()`
contains exactly N keys, and the record mapped under each key equals the
response projection of the document returned by the corresponding upload. -/
theorem listAll_roundtrip_amended (ups : List (String × CloudFile × Nat))
    (hnd : (ups.map Prod.fst).Nodup)
    (hne : ∀ u ∈ ups, ¬ u.1 = "")
    (hpr : ∀ u ∈ ups, ¬ u.1 = "__proto__") :
    (∀ u ∈ ups, ∀ d : List DbImage,
        (uploadDb d (some u.2.1) (some u.1) u.2.2).1
          = DbUploadResult.ok (mkDocU u))
    ∧ (listAllDb (runUploadsDb [] ups)).length = ups.length
    ∧ ∀ u ∈ ups,
        ownGet (listAllDb (runUploadsDb [] ups)) u.1
          = some (recOfImg (mkDocU u)) := by
  have hrun : runUploadsDb [] ups = ups.map mkDocU := by
    simpa using runUploadsDb_fresh ups [] (by simp [dbKeys]) hnd hne
  have hkeysF : dbKeys (ups.map mkDocU) = ups.map Prod.fst := by
    simp only [dbKeys, List.map_map]
    rfl
  have hndF : (dbKeys (ups.map mkDocU)).Nodup := by rw [hkeysF]; exact hnd
  have hperm : (List.insertionSort byUploadedDesc (ups.map mkDocU)).Perm
      (ups.map mkDocU) := List.perm_insertionSort _ _
  have hndS : ((List.insertionSort byUploadedDesc (ups.map mkDocU)).map
      DbImage.imageKey).Nodup :=
    ((hperm.map DbImage.imageKey).nodup_iff).mpr hndF
  have hkeyOf : ∀ i ∈ List.insertionSort byUploadedDesc (ups.map mkDocU),
      ¬ i.imageKey = "__proto__" := by
    intro i hi
    obtain ⟨u, hu, rfl⟩ := List.mem_map.mp (hperm.mem_iff.mp hi)
    exact hpr u hu
  have hfilt : (List.insertionSort byUploadedDesc (ups.map mkDocU)).filter
        (fun i => ¬ i.imageKey = "__proto__")
      = List.insertionSort byUploadedDesc (ups.map mkDocU) :=
    List.filter_eq_self.mpr (fun i hi => by simpa using hkeyOf i hi)
  have hobj : buildImageObj
        (List.insertionSort byUploadedDesc (ups.map mkDocU)) []
      = (List.insertionSort byUploadedDesc (ups.map mkDocU)).map
          (fun i => (i.imageKey, recOfImg i)) := by
    rw [buildImageObj_eq (List.insertionSort byUploadedDesc (ups.map mkDocU))
      [] (by simp [objKeys]) hndS]
    rw [hfilt]
    simp
  have hlist : listAllDb (runUploadsDb [] ups)
      = jsEnumOrder ((List.insertionSort byUploadedDesc (ups.map mkDocU)).map
          (fun i => (i.imageKey, recOfImg i))) := by
    rw [hrun]
    simp only [listAllDb]
    rw [hobj]
  have hndO : (objKeys ((List.insertionSort byUploadedDesc (ups.map mkDocU)).map
      (fun i => (i.imageKey, recOfImg i)))).Nodup := by
    have : objKeys ((List.insertionSort byUploadedDesc (ups.map mkDocU)).map
        (fun i => (i.imageKey, recOfImg i)))
        = (List.insertionSort byUploadedDesc (ups.map mkDocU)).map
            DbImage.imageKey := by
      simp only [objKeys, List.map_map]
      rfl
    rw [this]
    exact hndS
  refine ⟨?_, ?_, ?_⟩
  · intro u hu d
    simp [uploadDb_ok d u.2.1 u.1 u.2.2 (hne u hu), mkDocU]
  · rw [hlist]
    rw [(jsEnumOrder_perm _).length_eq]
    rw [List.length_map, hperm.length_eq, List.length_map]
  · intro u hu
    rw [hlist]
    have hmemO : ((mkDocU u).imageKey, recOfImg (mkDocU u))
        ∈ (List.insertionSort byUploadedDesc (ups.map mkDocU)).map
            (fun i => (i.imageKey, recOfImg i)) :=
      List.mem_map_of_mem _ (hperm.mem_iff.mpr (List.mem_map_of_mem mkDocU hu))
    have hmemE := (jsEnumOrder_perm _).mem_iff.mpr hmemO
    have hndE : (objKeys (jsEnumOrder
        ((List.insertionSort byUploadedDesc (ups.map mkDocU)).map
          (fun i => (i.imageKey, recOfImg i))))).Nodup :=
      (((jsEnumOrder_perm _).map Prod.fst).nodup_iff).mpr hndO
    exact ownGet_eq_some_of_mem hndE hmemE

/-- Witness for the amended C5 at two concrete distinct uploads. -/
theorem listAll_roundtrip_amended_witness :
    (listAllDb (runUploadsDb []
        [("a", ⟨"ua", "pa", "oa", 1, "image/png"⟩, 10),
         ("b", ⟨"ub", "pb", "ob", 2, "image/jpeg"⟩, 5)])).length = 2
    ∧ ownGet (listAllDb (runUploadsDb []
        [("a", ⟨"ua", "pa", "oa", 1, "image/png"⟩, 10),
         ("b", ⟨"ub", "pb", "ob", 2, "image/jpeg"⟩, 5)])) "a"
      = some (recOfImg (mkDocU ("a", ⟨"ua", "pa", "oa", 1, "image/png"⟩, 10))) := by
  have h := listAll_roundtrip_amended
    [("a", ⟨"ua", "pa", "oa", 1, "image/png"⟩, 10),
     ("b", ⟨"ub", "pb", "ob", 2, "image/jpeg"⟩, 5)]
    (by decide) (by decide) (by decide)
  exact ⟨h.2.1, h.2.2 ("a", ⟨"ua", "pa", "oa", 1, "image/png"⟩, 10)
    (by decide)⟩

/-- C8 (counterexample): `listAll()` of the database variant does not yield
non-increasing `uploadedAt` for every store state.  With records keyed "b"
(uploadedAt 10) and "1" (uploadedAt 5), the sort produces ["b", "1"], but
the rebuilt JavaScript object enumerates the array-index-like key "1" first,
so iteration yields uploadedAt values 5, 10 - increasing. -/
theorem listAll_desc_order_cex :
    ¬ List.Chain' (fun a b => b.2.uploadedAt ≤ a.2.uploadedAt)
        (listAllDb [⟨"b", "u1", "p1", "o1", 1, "image/png", 10⟩,
                    ⟨"1", "u2", "p2", "o2", 2, "image/png", 5⟩]) := by
  have h : listAllDb [⟨"b", "u1", "p1", "o1", 1, "image/png", 10⟩,
        ⟨"1", "u2", "p2", "o2", 2, "image/png", 5⟩]
      = [("1", ⟨"u2", "p2", "o2", 2, "image/png", 5⟩),
         ("b", ⟨"u1", "p1", "o1", 1, "image/png", 10⟩)] := by rfl
  rw [h]
  intro hch
  exact absurd (List.chain'_cons.mp hch).1 (by decide)

/-- C8 (amended): in the database variant, provided the imageKeys are
pairwise distinct (the schema's unique index) and none of them is an
array-index-like string (a canonical decimal integer below 2^32 - 1, which
JavaScript objects enumerate first regardless of insertion order), iterating
the mapping returned by `listAll()` yields records whose `uploadedAt` values
are non-increasing. -/
theorem listAll_desc_order_amended (db : List DbImage)
    (hnd : (db.map DbImage.imageKey).Nodup)
    (hidx : ∀ i ∈ db, isArrayIndexKey i.imageKey = false) :
    List.Chain' (fun a b => b.2.uploadedAt ≤ a.2.uploadedAt) (listAllDb db) := by
  have hperm : (List.insertionSort byUploadedDesc db).Perm db :=
    List.perm_insertionSort _ _
  have hsort : List.Sorted byUploadedDesc (List.insertionSort byUploadedDesc db) :=
    List.sorted_insertionSort _ _
  have hndS : ((List.insertionSort byUploadedDesc db).map DbImage.imageKey).Nodup :=
    ((hperm.map DbImage.imageKey).nodup_iff).mpr hnd
  have hobj : buildImageObj (List.insertionSort byUploadedDesc db) []
      = ((List.insertionSort byUploadedDesc db).filter
          (fun i => ¬ i.imageKey = "__proto__")).map
          (fun i => (i.imageKey, recOfImg i)) := by
    simpa using buildImageObj_eq (List.insertionSort byUploadedDesc db) []
      (by simp [objKeys]) hndS
  have hkeyO : ∀ p ∈ ((List.insertionSort byUploadedDesc db).filter
        (fun i => ¬ i.imageKey = "__proto__")).map
        (fun i => (i.imageKey, recOfImg i)),
      isArrayIndexKey p.1 = false := by
    intro p hp
    obtain ⟨i, hi, rfl⟩ := List.mem_map.mp hp
    exact hidx i (hperm.mem_iff.mp (List.mem_of_mem_filter hi))
  have henum : jsEnumOrder (((List.insertionSort byUploadedDesc db).filter
        (fun i => ¬ i.imageKey = "__proto__")).map
        (fun i => (i.imageKey, recOfImg i)))
      = ((List.insertionSort byUploadedDesc db).filter
          (fun i => ¬ i.imageKey = "__proto__")).map
          (fun i => (i.imageKey, recOfImg i)) := by
    rw [jsEnumOrder]
    rw [List.filter_eq_nil_iff.mpr (fun p hp => by simp [hkeyO p hp])]
    rw [List.filter_eq_self.mpr (fun p hp => by simp [hkeyO p hp])]
    rfl
  have hchain : List.Pairwise (fun a b => b.2.uploadedAt ≤ a.2.uploadedAt)
      (((List.insertionSort byUploadedDesc db).filter
        (fun i => ¬ i.imageKey = "__proto__")).map
        (fun i => (i.imageKey, recOfImg i))) := by
    rw [List.pairwise_map]
    exact ((hsort.sublist (List.filter_sublist _)).imp (fun h => h))
  simp only [listAllDb]
  rw [hobj, henum]
  exact hchain.chain'

/-- Witness for the amended C8 at a concrete two-record store with
non-index keys. -/
theorem listAll_desc_order_amended_witness :
    List.Chain' (fun a b => b.2.uploadedAt ≤ a.2.uploadedAt)
        (listAllDb [⟨"b", "u1", "p1", "o1", 1, "image/png", 10⟩,
                    ⟨"a", "u2", "p2", "o2", 2, "image/png", 5⟩]) :=
  listAll_desc_order_amended
    [⟨"b", "u1", "p1", "o1", 1, "image/png", 10⟩,
     ⟨"a", "u2", "p2", "o2", 2, "image/png", 5⟩]
    (by decide) (by decide)
